import Mathlib

/-!
Shallow embedding of `promptflow/orchestrator/_chat_group_orchestrator.py`
(class `ChatGroupOrchestrator`): the chat-group turn scheduler, its
validation layer, result assembly, and executor-handle lifecycle.

Python dictionaries are modelled as association lists with unique keys,
preserving insertion order (the order-sensitive parts of the source rely on
dict insertion order).  The executor proxy (`AbstractExecutorProxy`,
an external collaborator that is not part of this repository) is modelled
as an oracle: for each role index it maps the conversation history injected
into the call (the only part of `chat_role_input` that varies between
turns of one line) to the `LineResult` the proxy returns for that turn.
-/

namespace ChatGroup

/-- Python constant `CONVERSATION_HISTORY_EXPRESSION` from `promptflow._constants`:
the sentinel expression a role's inputs mapping uses to request conversation
history injection. -/
def CONVERSATION_HISTORY_EXPRESSION : String := "$\x7bparent.conversation_history\x7d"

/-- Python constant `CONVERSATION_HISTORY_OUTPUT_KEY` from `promptflow._constants`:
the reserved string key under which the final conversation history is published
in the line result output. -/
def CONVERSATION_HISTORY_OUTPUT_KEY : String := "conversation_history"

/-- A chat role (`promptflow._sdk.entities._chat_group._chat_role.ChatRole`):
only the fields read by the orchestrator are modelled.  `role` is the kind tag,
`inputs_mapping` maps flow input names to expressions (order-preserving, unique
keys, like the Python dict it comes from). -/
structure ChatRole where
  role : String
  name : String
  stop_signal : String
  inputs_mapping : List (String × String)
  deriving DecidableEq, Inhabited

/-- The result of one `exec_line_async` call of an executor proxy
(`promptflow.executor._result.LineResult` as consumed per turn).  `output` is the
flow's output dict (field name to value, string-valued in this model);
`aggregation_inputs`, `node_run_infos` and `run_info` are opaque payloads that
the orchestrator forwards untouched, so they are type parameters. -/
structure TurnResult (A N R : Type) where
  output : List (String × String)
  aggregation_inputs : A
  node_run_infos : N
  run_info : R
  deriving DecidableEq

/-- A conversation-history record: one Python dict of string fields. -/
abbrev Record := List (String × String)

/-- Keys of the `outputs` dict assembled by `_schedule_line_runs`: Python mixes
integer turn indices with the reserved string key
`CONVERSATION_HISTORY_OUTPUT_KEY`; an int key and a string key are always
distinct, which the two constructors encode. -/
inductive OutKey where
  | turn (index : Nat)
  | historyKey
  deriving DecidableEq

/-- Values of the `outputs` dict: per-turn history records, and the full
conversation history stored under the reserved key. -/
inductive OutVal where
  | record (r : Record)
  | history (h : List Record)
  deriving DecidableEq

/-- The line result returned by `_schedule_line_runs` (the constructor call
`LineResult(output=outputs, aggregation_inputs=..., node_run_infos=...,
run_info=...)` at the end of the method). -/
structure LineResult (A N R : Type) where
  output : List (OutKey × OutVal)
  aggregation_inputs : List (Nat × A)
  node_run_infos : N
  run_info : R
  deriving DecidableEq

/-- Observable side effects on external collaborators: executor-proxy creation
(`_create_executor_proxy` loop), executor invocation (`exec_line_async`), and
executor teardown (`destroy` loop).  Used to state fail-fast properties
(no executor touched before/after a certain point). -/
inductive Event where
  | createProxy (roleIndex : Nat)
  | execLine (turn : Nat) (roleIndex : Nat)
  | destroyProxy (index : Nat)
  deriving DecidableEq

/-- The exceptions raised by the orchestrator source: the three configuration
errors imported from `promptflow.orchestrator._errors`, plus Python's builtin
`AttributeError` raised when `current_line_result.node_run_infos` is evaluated
while `current_line_result` is still `None`. -/
inductive OrchestratorError where
  | invalidChatRoleCount
  | missingConversationHistoryExpression
  | multipleConversationHistoryInputsMapping
  | attributeErrorNone
  deriving DecidableEq

/-- Python dict assignment `d[k] = v` on an association list with unique keys:
replace the value in place if the key is present (keeping its position, as dict
update does), otherwise append the new binding at the end. -/
def dictInsert {K V : Type} [DecidableEq K] : List (K × V) → K → V → List (K × V)
  | [], k, v => [(k, v)]
  | p :: rest, k, v => if p.1 = k then (k, v) :: rest else p :: dictInsert rest k v

/-- Python `d.update(e)`: assign every binding of `e` into `d`, left to right. -/
def dictUpdate {K V : Type} [DecidableEq K] (d e : List (K × V)) : List (K × V) :=
  e.foldl (fun acc p => dictInsert acc p.1 p.2) d

/-- Python dict read `d[k]` (as an option): first binding of `k`. -/
def alistLookup {K V : Type} [DecidableEq K] : List (K × V) → K → Option V
  | [], _ => none
  | p :: rest, k => if p.1 = k then some p.2 else alistLookup rest k

/-- The per-turn records stored in a line result's `output` dict, in insertion
order (the values under integer turn keys). -/
def turnRecords (output : List (OutKey × OutVal)) : List Record :=
  output.filterMap (fun p =>
    match p with
    | (OutKey.turn _, OutVal.record r) => some r
    | _ => none)

/-- The two per-role validation checks at the top of the
`_process_batch_inputs` loop: raise `MissingConversationHistoryExpression` when
`CONVERSATION_HISTORY_EXPRESSION not in chat_role.inputs_mapping.values()`,
then `MultipleConversationHistoryInputsMapping` when
`list(chat_role.inputs_mapping.values()).count(CONVERSATION_HISTORY_EXPRESSION) > 1`. -/
def validateRoleMapping (chat_role : ChatRole) : Except OrchestratorError Unit :=
  if ¬ (chat_role.inputs_mapping.map Prod.snd).contains CONVERSATION_HISTORY_EXPRESSION then
    Except.error OrchestratorError.missingConversationHistoryExpression
  else if 1 < (chat_role.inputs_mapping.map Prod.snd).count CONVERSATION_HISTORY_EXPRESSION then
    Except.error OrchestratorError.multipleConversationHistoryInputsMapping
  else
    Except.ok ()

/-- `ChatGroupOrchestrator._process_batch_inputs`: iterate the roles in registry
order, validating each role's mapping; the first failing role's exception
propagates.  The actual input resolution (the external `BatchInputsProcessor`
and `apply_default_value_for_input` collaborators) produces the per-role
resolved input dicts whose only turn-varying slot is the conversation-history
slot; that resolution is absorbed into the executor oracle of `runTurns`. -/
def processBatchInputs : List ChatRole → Except OrchestratorError Unit
  | [] => Except.ok ()
  | chat_role :: rest =>
    match validateRoleMapping chat_role with
    | Except.error e => Except.error e
    | Except.ok _ => processBatchInputs rest

/-- The mutable local state of the `for turn in range(self._max_turn)` loop in
`_schedule_line_runs`: `outputs`, `aggregation_inputs`, `conversation_history`
and `current_line_result` (here `last`, `none` until the first turn completes). -/
structure LoopState (A N R : Type) where
  outputs : List (Nat × Record)
  aggregation_inputs : List (Nat × A)
  conversation_history : List Record
  last : Option (TurnResult A N R)
  deriving DecidableEq

/-- Loop state at entry of `_schedule_line_runs`: empty dicts, empty history,
`current_line_result = None`. -/
def initLoopState {A N R : Type} : LoopState A N R :=
  { outputs := [], aggregation_inputs := [], conversation_history := [], last := none }

/-- The turn loop of `_schedule_line_runs`, body faithful to the source:
select `role_index = turn % total_roles` and the corresponding role and proxy;
look up the input key mapped to `CONVERSATION_HISTORY_EXPRESSION` (raising
`MissingConversationHistoryExpression` when absent); inject the current
conversation history into the call and await the proxy (`proxies role_index
st.conversation_history` models `exec_line_async` on the injected input);
run `_process_flow_outputs` (seed the record with the role kind tag, merge the
output fields over it, append to history, key outputs and aggregation inputs
by turn index); finally break when any output value equals the role's
`stop_signal`.  `fuel` counts the remaining turns of `range(max_turn)`; the
event list accumulates the executor invocations in order. -/
def runTurns {A N R : Type} (roles : List ChatRole)
    (proxies : Nat → List Record → TurnResult A N R) :
    Nat → Nat → LoopState A N R → List Event →
    List Event × Except OrchestratorError (LoopState A N R)
  | _, 0, st, evs => (evs, Except.ok st)
  | turn, fuel + 1, st, evs =>
    let role_index := turn % roles.length
    let chat_role := roles.getD role_index default
    match chat_role.inputs_mapping.find? (fun p => p.2 == CONVERSATION_HISTORY_EXPRESSION) with
    | none => (evs, Except.error OrchestratorError.missingConversationHistoryExpression)
    | some _ =>
      let current_line_result := proxies role_index st.conversation_history
      let current_turn := dictUpdate [("role", chat_role.role)] current_line_result.output
      let st' : LoopState A N R :=
        { outputs := dictInsert st.outputs turn current_turn,
          aggregation_inputs :=
            dictInsert st.aggregation_inputs turn current_line_result.aggregation_inputs,
          conversation_history := st.conversation_history ++ [current_turn],
          last := some current_line_result }
      let evs' := evs ++ [Event.execLine turn role_index]
      if current_line_result.output.any (fun p => p.2 == chat_role.stop_signal) then
        (evs', Except.ok st')
      else
        runTurns roles proxies (turn + 1) fuel st' evs'

/-- `ChatGroupOrchestrator._schedule_line_runs` for one input line: process and
validate batch inputs, run the turn loop, publish the conversation history
under the reserved output key, and assemble the `LineResult` from the loop
state and the last turn's result (reading `node_run_infos` and `run_info` off
`current_line_result`, which raises `AttributeError` when it is still `None`).
Returns the executor-invocation events alongside the result or the raised
exception. -/
def scheduleLineRuns {A N R : Type} (roles : List ChatRole)
    (proxies : Nat → List Record → TurnResult A N R) (max_turn : Nat) :
    List Event × Except OrchestratorError (LineResult A N R) :=
  match processBatchInputs roles with
  | Except.error e => ([], Except.error e)
  | Except.ok _ =>
    match runTurns roles proxies 0 max_turn initLoopState [] with
    | (evs, Except.error e) => (evs, Except.error e)
    | (evs, Except.ok st) =>
      let outputs :=
        dictUpdate (st.outputs.map (fun p => (OutKey.turn p.1, OutVal.record p.2)))
          [(OutKey.historyKey, OutVal.history st.conversation_history)]
      match st.last with
      | none => (evs, Except.error OrchestratorError.attributeErrorNone)
      | some current_line_result =>
        (evs, Except.ok
          { output := outputs,
            aggregation_inputs := st.aggregation_inputs,
            node_run_infos := current_line_result.node_run_infos,
            run_info := current_line_result.run_info })

/-- `ChatGroupOrchestrator._create_executor_proxy`: one proxy handle per role,
created in registry order (handles are modelled by their index). -/
def createExecutorProxy (roles : List ChatRole) : List Event × List Nat :=
  ((List.range roles.length).map Event.createProxy, List.range roles.length)

/-- The orchestrator object after a successful `__init__`. -/
structure ChatGroupOrchestrator where
  chat_group_roles : List ChatRole
  max_turn : Nat
  executor_proxies : List Nat
  deriving DecidableEq

/-- `ChatGroupOrchestrator.__init__`: raise `InvalidChatRoleCount` when fewer
than 2 roles are supplied (before `_create_executor_proxy` runs, so no proxy is
created on that path); otherwise create one executor proxy per role.  No check
is performed on `max_turn`. -/
def ChatGroupOrchestrator.init (roles : List ChatRole) (max_turn : Nat) :
    List Event × Except OrchestratorError ChatGroupOrchestrator :=
  if roles.length < 2 then
    ([], Except.error OrchestratorError.invalidChatRoleCount)
  else
    ((createExecutorProxy roles).1,
     Except.ok { chat_group_roles := roles, max_turn := max_turn,
                 executor_proxies := (createExecutorProxy roles).2 })

/-- The `destroy` loop over executor proxies: each element of `outcomes` is
what the corresponding proxy's `destroy()` call does (return or raise, in
registry order starting at `index`).  The source awaits each call with no
exception handling, so a raise propagates immediately and the remaining
proxies are not destroyed. -/
def destroyLoop {E : Type} : Nat → List (Except E Unit) → List Event × Except E Unit
  | _, [] => ([], Except.ok ())
  | index, outcome :: rest =>
    match outcome with
    | Except.error e => ([Event.destroyProxy index], Except.error e)
    | Except.ok _ =>
      let next := destroyLoop (index + 1) rest
      (Event.destroyProxy index :: next.1, next.2)

/-- `ChatGroupOrchestrator.destroy`: tear down the executor proxies in registry
order. -/
def ChatGroupOrchestrator.destroy {E : Type} (outcomes : List (Except E Unit)) :
    List Event × Except E Unit :=
  destroyLoop 0 outcomes

/-- The active role of turn `t`: `self._chat_group_roles[t % total_roles]`. -/
def roleAt (roles : List ChatRole) (t : Nat) : ChatRole :=
  roles.getD (t % roles.length) default

/-- The conversation history a run has accumulated when turn `t` starts:
each completed turn `s` appended the record seeded with the acting role's kind
tag and merged with the proxy's output for that turn (the proxy for turn `s`
observes the history of turns before `s`). -/
def runHistory {A N R : Type} (roles : List ChatRole)
    (proxies : Nat → List Record → TurnResult A N R) : Nat → List Record
  | 0 => []
  | t + 1 =>
    runHistory roles proxies t ++
      [dictUpdate [("role", (roleAt roles t).role)]
        ((proxies (t % roles.length) (runHistory roles proxies t)).output)]

/-- The executor result of turn `t` of the run. -/
def resultAt {A N R : Type} (roles : List ChatRole)
    (proxies : Nat → List Record → TurnResult A N R) (t : Nat) : TurnResult A N R :=
  proxies (t % roles.length) (runHistory roles proxies t)

/-- The history record produced by turn `t` (`_process_flow_outputs`): the dict
seeded with the acting role's kind tag under `"role"`, merged with the turn's
full output. -/
def recordAt {A N R : Type} (roles : List ChatRole)
    (proxies : Nat → List Record → TurnResult A N R) (t : Nat) : Record :=
  dictUpdate [("role", (roleAt roles t).role)] (resultAt roles proxies t).output

/-- The stop condition evaluated at the end of turn `t`: some value of the
turn's output equals the active role's `stop_signal`. -/
def stopsAt {A N R : Type} (roles : List ChatRole)
    (proxies : Nat → List Record → TurnResult A N R) (t : Nat) : Bool :=
  (resultAt roles proxies t).output.any (fun p => p.2 == (roleAt roles t).stop_signal)

/-- The number of turns the loop executes when entered at turn `turn` with
`fuel` loop iterations left: every iteration executes one turn, and the loop
breaks after a turn whose stop condition holds. -/
def execCount {A N R : Type} (roles : List ChatRole)
    (proxies : Nat → List Record → TurnResult A N R) : Nat → Nat → Nat
  | _, 0 => 0
  | turn, fuel + 1 =>
    if stopsAt roles proxies turn then 1 else 1 + execCount roles proxies (turn + 1) fuel

/-- The loop state after the first `t` turns of the run have completed. -/
def stateAt {A N R : Type} (roles : List ChatRole)
    (proxies : Nat → List Record → TurnResult A N R) : Nat → LoopState A N R
  | 0 => initLoopState
  | t + 1 =>
    let st := stateAt roles proxies t
    { outputs := dictInsert st.outputs t (recordAt roles proxies t),
      aggregation_inputs :=
        dictInsert st.aggregation_inputs t (resultAt roles proxies t).aggregation_inputs,
      conversation_history := st.conversation_history ++ [recordAt roles proxies t],
      last := some (resultAt roles proxies t) }

/-- A role's mapping is valid when exactly one input binds the
conversation-history sentinel. -/
def validRoles (roles : List ChatRole) : Prop :=
  ∀ r ∈ roles,
    (r.inputs_mapping.map Prod.snd).count CONVERSATION_HISTORY_EXPRESSION = 1

instance (roles : List ChatRole) : Decidable (validRoles roles) := by
  unfold validRoles; infer_instance

/- Concrete inputs used by the witness theorems. -/

/-- A concrete valid role. -/
def cRoleA : ChatRole :=
  { role := "assistant", name := "alpha", stop_signal := "bye",
    inputs_mapping := [("question", "from_data"), ("history", CONVERSATION_HISTORY_EXPRESSION)] }

/-- A concrete valid role. -/
def cRoleB : ChatRole :=
  { role := "user", name := "beta", stop_signal := "bye",
    inputs_mapping := [("history", CONVERSATION_HISTORY_EXPRESSION)] }

/-- A concrete valid two-role registry. -/
def cRoles : List ChatRole := [cRoleA, cRoleB]

/-- A concrete role with no conversation-history binding. -/
def badRole : ChatRole :=
  { role := "user", name := "gamma", stop_signal := "bye",
    inputs_mapping := [("question", "from_data")] }

/-- Concrete executor behavior that never emits a stop signal. -/
def cProxies : Nat → List Record → TurnResult Nat Nat Nat :=
  fun i h => { output := [("msg", "hello")], aggregation_inputs := i,
               node_run_infos := h.length, run_info := i + h.length }

/-- Concrete executor behavior that emits the stop signal at turn 1 (when the
injected history has one record) and a plain message otherwise. -/
def sProxies : Nat → List Record → TurnResult Nat Nat Nat :=
  fun i h =>
    if h.length = 1 then
      { output := [("msg", "bye")], aggregation_inputs := i,
        node_run_infos := h.length, run_info := 0 }
    else
      { output := [("msg", "hi")], aggregation_inputs := i,
        node_run_infos := h.length, run_info := 0 }

/-- Concrete executor behavior whose turn-0 output itself contains a
`"role"` field. -/
def wProxies : Nat → List Record → TurnResult Nat Nat Nat :=
  fun i h => { output := [("msg", "hi"), ("role", "impostor")], aggregation_inputs := i,
               node_run_infos := h.length, run_info := 0 }

/-- The line result of scheduling one turn of `cRoles` with `cProxies`, used
as a concrete completed line. -/
def wLineResult : LineResult Nat Nat Nat :=
  { output := [(OutKey.turn 0, OutVal.record [("role", "assistant"), ("msg", "hello")]),
      (OutKey.historyKey, OutVal.history [[("role", "assistant"), ("msg", "hello")]])],
    aggregation_inputs := [(0, 0)], node_run_infos := 0, run_info := 0 }

/- Lemmas about the dict model. -/

theorem dictInsert_of_not_mem {K V : Type} [DecidableEq K] (d : List (K × V)) (k : K) (v : V)
    (h : ∀ p ∈ d, p.1 ≠ k) : dictInsert d k v = d ++ [(k, v)] := by
  induction d with
  | nil => rfl
  | cons p rest ih =>
    have hp : p.1 ≠ k := h p (List.mem_cons_self p rest)
    simp only [dictInsert, if_neg hp, List.cons_append]
    rw [ih (fun q hq => h q (List.mem_cons_of_mem p hq))]

theorem alistLookup_append_right {K V : Type} [DecidableEq K] (d e : List (K × V)) (k : K)
    (h : ∀ p ∈ d, p.1 ≠ k) : alistLookup (d ++ e) k = alistLookup e k := by
  induction d with
  | nil => rfl
  | cons p rest ih =>
    have hp : p.1 ≠ k := h p (List.mem_cons_self p rest)
    simp only [List.cons_append, alistLookup, if_neg hp]
    exact ih (fun q hq => h q (List.mem_cons_of_mem p hq))

theorem alistLookup_dictInsert_self {K V : Type} [DecidableEq K] (d : List (K × V)) (k : K)
    (v : V) : alistLookup (dictInsert d k v) k = some v := by
  induction d with
  | nil => simp [dictInsert, alistLookup]
  | cons p rest ih =>
    by_cases hp : p.1 = k
    · simp [dictInsert, if_pos hp, alistLookup]
    · simp only [dictInsert, if_neg hp, alistLookup, if_neg hp]
      exact ih

theorem alistLookup_dictInsert_ne {K V : Type} [DecidableEq K] (d : List (K × V)) (j k : K)
    (v : V) (h : j ≠ k) : alistLookup (dictInsert d j v) k = alistLookup d k := by
  induction d with
  | nil => simp [dictInsert, alistLookup, if_neg h]
  | cons p rest ih =>
    by_cases hp : p.1 = j
    · simp only [dictInsert, if_pos hp, alistLookup, if_neg h, if_neg (hp ▸ h)]
    · simp only [dictInsert, if_neg hp, alistLookup]
      by_cases hk : p.1 = k
      · simp [if_pos hk]
      · simp only [if_neg hk]
        exact ih

theorem alistLookup_dictUpdate_not_mem {K V : Type} [DecidableEq K] (e : List (K × V)) (k : K)
    (h : ∀ p ∈ e, p.1 ≠ k) : ∀ d, alistLookup (dictUpdate d e) k = alistLookup d k := by
  induction e with
  | nil => intro d; rfl
  | cons p rest ih =>
    intro d
    have hp : p.1 ≠ k := h p (List.mem_cons_self p rest)
    show alistLookup (dictUpdate (dictInsert d p.1 p.2) rest) k = alistLookup d k
    rw [ih (fun q hq => h q (List.mem_cons_of_mem p hq)) (dictInsert d p.1 p.2)]
    exact alistLookup_dictInsert_ne d p.1 k p.2 hp

theorem alistLookup_dictUpdate {K V : Type} [DecidableEq K] (e : List (K × V)) (k : K) (v : V)
    (he : (e.map Prod.fst).Nodup) (h : alistLookup e k = some v) :
    ∀ d, alistLookup (dictUpdate d e) k = some v := by
  induction e with
  | nil => simp [alistLookup] at h
  | cons p rest ih =>
    intro d
    by_cases hp : p.1 = k
    · have hv : p.2 = v := by
        simpa [alistLookup, if_pos hp] using h
      have hrest : ∀ q ∈ rest, q.1 ≠ k := by
        intro q hq
        have := (List.nodup_cons.mp he).1
        intro hqk
        exact this (hp ▸ hqk ▸ List.mem_map_of_mem Prod.fst hq)
      show alistLookup (dictUpdate (dictInsert d p.1 p.2) rest) k = some v
      rw [alistLookup_dictUpdate_not_mem rest k hrest (dictInsert d p.1 p.2)]
      rw [hp, alistLookup_dictInsert_self d k p.2, hv]
    · have hrest : alistLookup rest k = some v := by
        simpa [alistLookup, if_neg hp] using h
      show alistLookup (dictUpdate (dictInsert d p.1 p.2) rest) k = some v
      exact ih (List.nodup_cons.mp he).2 hrest (dictInsert d p.1 p.2)

/- Lemmas about the validation layer. -/

theorem validateRoleMapping_ok_iff (r : ChatRole) :
    validateRoleMapping r = Except.ok () ↔
      (r.inputs_mapping.map Prod.snd).count CONVERSATION_HISTORY_EXPRESSION = 1 := by
  unfold validateRoleMapping
  by_cases hc :
      (r.inputs_mapping.map Prod.snd).contains CONVERSATION_HISTORY_EXPRESSION = true
  · have hmem : CONVERSATION_HISTORY_EXPRESSION ∈ r.inputs_mapping.map Prod.snd := by
      simpa using hc
    have hpos : 0 < (r.inputs_mapping.map Prod.snd).count CONVERSATION_HISTORY_EXPRESSION :=
      List.count_pos_iff.mpr hmem
    by_cases hgt : 1 < (r.inputs_mapping.map Prod.snd).count CONVERSATION_HISTORY_EXPRESSION
    · simp only [hc, not_true, if_neg, if_pos hgt]
      constructor
      · intro h; cases h
      · intro h; omega
    · simp only [hc, not_true, if_neg, if_neg hgt]
      constructor
      · intro _; omega
      · intro _; simp
  · have hmem : CONVERSATION_HISTORY_EXPRESSION ∉ r.inputs_mapping.map Prod.snd := by
      simpa using hc
    have hzero : (r.inputs_mapping.map Prod.snd).count CONVERSATION_HISTORY_EXPRESSION = 0 :=
      List.count_eq_zero.mpr hmem
    simp only [hc, Bool.not_false, if_pos, hzero]
    constructor
    · intro h; cases h
    · intro h; omega

theorem validateRoleMapping_error (r : ChatRole)
    (h : (r.inputs_mapping.map Prod.snd).count CONVERSATION_HISTORY_EXPRESSION ≠ 1) :
    (validateRoleMapping r = Except.error
        OrchestratorError.missingConversationHistoryExpression) ∨
    (validateRoleMapping r = Except.error
        OrchestratorError.multipleConversationHistoryInputsMapping) := by
  unfold validateRoleMapping
  by_cases hc :
      (r.inputs_mapping.map Prod.snd).contains CONVERSATION_HISTORY_EXPRESSION = true
  · have hmem : CONVERSATION_HISTORY_EXPRESSION ∈ r.inputs_mapping.map Prod.snd := by
      simpa using hc
    have hpos : 0 < (r.inputs_mapping.map Prod.snd).count CONVERSATION_HISTORY_EXPRESSION :=
      List.count_pos_iff.mpr hmem
    have hgt : 1 < (r.inputs_mapping.map Prod.snd).count CONVERSATION_HISTORY_EXPRESSION := by
      omega
    right
    rw [if_neg (fun hn => hn hc), if_pos hgt]
  · left
    rw [if_pos hc]

theorem processBatchInputs_ok (roles : List ChatRole) (h : validRoles roles) :
    processBatchInputs roles = Except.ok () := by
  induction roles with
  | nil => rfl
  | cons r rest ih =>
    have hr : validateRoleMapping r = Except.ok () :=
      (validateRoleMapping_ok_iff r).mpr (h r (List.mem_cons_self r rest))
    simp only [processBatchInputs, hr]
    exact ih (fun q hq => h q (List.mem_cons_of_mem r hq))

theorem processBatchInputs_error (roles : List ChatRole) (h : ¬ validRoles roles) :
    ∃ e, processBatchInputs roles = Except.error e ∧
      (e = OrchestratorError.missingConversationHistoryExpression ∨
       e = OrchestratorError.multipleConversationHistoryInputsMapping) := by
  induction roles with
  | nil => exact absurd (by intro r hr; cases hr) h
  | cons r rest ih =>
    by_cases hr :
        (r.inputs_mapping.map Prod.snd).count CONVERSATION_HISTORY_EXPRESSION = 1
    · have hrok : validateRoleMapping r = Except.ok () :=
        (validateRoleMapping_ok_iff r).mpr hr
      have hrest : ¬ validRoles rest := by
        intro hv
        exact h (by
          intro q hq
          rcases List.mem_cons.mp hq with hq | hq
          · exact hq ▸ hr
          · exact hv q hq)
      obtain ⟨e, he, hkind⟩ := ih hrest
      exact ⟨e, by simp only [processBatchInputs, hrok, he], hkind⟩
    · rcases validateRoleMapping_error r hr with hv | hv
      · exact ⟨_, by simp only [processBatchInputs, hv], Or.inl rfl⟩
      · exact ⟨_, by simp only [processBatchInputs, hv], Or.inr rfl⟩

theorem getD_mem {α : Type} (l : List α) (n : Nat) (d : α) (h : n < l.length) :
    l.getD n d ∈ l := by
  induction l generalizing n with
  | nil => simp at h
  | cons a rest ih =>
    cases n with
    | zero => simp [List.getD]
    | succ m =>
      simp only [List.getD_cons_succ]
      exact List.mem_cons_of_mem a (ih m (by simpa using h))

theorem find_history_key_some (r : ChatRole)
    (h : (r.inputs_mapping.map Prod.snd).count CONVERSATION_HISTORY_EXPRESSION = 1) :
    ∃ p, r.inputs_mapping.find?
      (fun p => p.2 == CONVERSATION_HISTORY_EXPRESSION) = some p := by
  have hpos : 0 < (r.inputs_mapping.map Prod.snd).count CONVERSATION_HISTORY_EXPRESSION := by
    omega
  have hmem : CONVERSATION_HISTORY_EXPRESSION ∈ r.inputs_mapping.map Prod.snd :=
    List.count_pos_iff.mp hpos
  obtain ⟨p, hp, hp2⟩ := List.mem_map.mp hmem
  have : (r.inputs_mapping.find? (fun p => p.2 == CONVERSATION_HISTORY_EXPRESSION)).isSome := by
    rw [List.find?_isSome]
    exact ⟨p, hp, by simp [hp2]⟩
  exact Option.isSome_iff_exists.mp this

/- Lemmas characterizing the run. -/

theorem stateAt_history {A N R : Type} (roles : List ChatRole)
    (proxies : Nat → List Record → TurnResult A N R) (t : Nat) :
    (stateAt roles proxies t).conversation_history = runHistory roles proxies t := by
  induction t with
  | zero => rfl
  | succ t ih => simp [stateAt, runHistory, recordAt, resultAt, ih]

theorem runHistory_eq_map {A N R : Type} (roles : List ChatRole)
    (proxies : Nat → List Record → TurnResult A N R) (t : Nat) :
    runHistory roles proxies t = (List.range t).map (recordAt roles proxies) := by
  induction t with
  | zero => rfl
  | succ t ih =>
    rw [List.range_succ, List.map_append]
    simp [runHistory, recordAt, resultAt, ih]

theorem stateAt_outputs {A N R : Type} (roles : List ChatRole)
    (proxies : Nat → List Record → TurnResult A N R) (t : Nat) :
    (stateAt roles proxies t).outputs =
      (List.range t).map (fun s => (s, recordAt roles proxies s)) := by
  induction t with
  | zero => rfl
  | succ t ih =>
    have hfresh : ∀ p ∈ (List.range t).map (fun s => (s, recordAt roles proxies s)),
        p.1 ≠ t := by
      intro p hp
      obtain ⟨s, hs, rfl⟩ := List.mem_map.mp hp
      have : s < t := List.mem_range.mp hs
      omega
    simp only [stateAt, ih]
    rw [dictInsert_of_not_mem _ _ _ hfresh, List.range_succ, List.map_append]
    rfl

theorem stateAt_aggregation {A N R : Type} (roles : List ChatRole)
    (proxies : Nat → List Record → TurnResult A N R) (t : Nat) :
    (stateAt roles proxies t).aggregation_inputs =
      (List.range t).map (fun s => (s, (resultAt roles proxies s).aggregation_inputs)) := by
  induction t with
  | zero => rfl
  | succ t ih =>
    have hfresh : ∀ p ∈ (List.range t).map
        (fun s => (s, (resultAt roles proxies s).aggregation_inputs)), p.1 ≠ t := by
      intro p hp
      obtain ⟨s, hs, rfl⟩ := List.mem_map.mp hp
      have : s < t := List.mem_range.mp hs
      omega
    simp only [stateAt, ih]
    rw [dictInsert_of_not_mem _ _ _ hfresh, List.range_succ, List.map_append]
    rfl

theorem stateAt_last {A N R : Type} (roles : List ChatRole)
    (proxies : Nat → List Record → TurnResult A N R) (t : Nat) :
    (stateAt roles proxies (t + 1)).last = some (resultAt roles proxies t) := rfl

theorem runTurns_stateAt {A N R : Type} (roles : List ChatRole)
    (proxies : Nat → List Record → TurnResult A N R)
    (hvalid : validRoles roles) (hlen : 0 < roles.length) :
    ∀ fuel turn evs,
      runTurns roles proxies turn fuel (stateAt roles proxies turn) evs =
        (evs ++ (List.range' turn (execCount roles proxies turn fuel)).map
            (fun t => Event.execLine t (t % roles.length)),
         Except.ok (stateAt roles proxies (turn + execCount roles proxies turn fuel))) := by
  intro fuel
  induction fuel with
  | zero => intro turn evs; simp [runTurns, execCount]
  | succ fuel ih =>
    intro turn evs
    have hmem : roles.getD (turn % roles.length) default ∈ roles :=
      getD_mem roles (turn % roles.length) default (Nat.mod_lt _ hlen)
    obtain ⟨p, hp⟩ := find_history_key_some _ (hvalid _ hmem)
    simp only [runTurns, hp]
    rw [stateAt_history]
    have hcond : ((proxies (turn % roles.length) (runHistory roles proxies turn)).output.any
        (fun q => q.2 == (roles.getD (turn % roles.length) default).stop_signal)) =
        stopsAt roles proxies turn := rfl
    rw [hcond]
    have hstep :
        ({ outputs := dictInsert (stateAt roles proxies turn).outputs turn
              (dictUpdate [("role", (roles.getD (turn % roles.length) default).role)]
                (proxies (turn % roles.length) (runHistory roles proxies turn)).output),
           aggregation_inputs := dictInsert (stateAt roles proxies turn).aggregation_inputs turn
              (proxies (turn % roles.length)
                (runHistory roles proxies turn)).aggregation_inputs,
           conversation_history := runHistory roles proxies turn ++
              [dictUpdate [("role", (roles.getD (turn % roles.length) default).role)]
                (proxies (turn % roles.length) (runHistory roles proxies turn)).output],
           last := some (proxies (turn % roles.length) (runHistory roles proxies turn)) } :
          LoopState A N R) = stateAt roles proxies (turn + 1) := by
      simp [stateAt, stateAt_history, recordAt, resultAt, roleAt]
    by_cases hs : stopsAt roles proxies turn
    · rw [if_pos hs]
      have hcount : execCount roles proxies turn (fuel + 1) = 1 := by
        simp [execCount, hs]
      rw [hcount, hstep]
      rfl
    · rw [if_neg (by simpa using hs)]
      have hs' : stopsAt roles proxies turn = false := by
        simpa using hs
      have hcount : execCount roles proxies turn (fuel + 1) =
          execCount roles proxies (turn + 1) fuel + 1 := by
        simp [execCount, hs', Nat.add_comm]
      rw [hstep, ih (turn + 1) (evs ++ [Event.execLine turn (turn % roles.length)])]
      rw [hcount, List.range'_succ]
      rw [show turn + (execCount roles proxies (turn + 1) fuel + 1) =
        (turn + 1) + execCount roles proxies (turn + 1) fuel by omega]
      simp

theorem execCount_pos {A N R : Type} (roles : List ChatRole)
    (proxies : Nat → List Record → TurnResult A N R) (turn fuel : Nat) (h : 0 < fuel) :
    0 < execCount roles proxies turn fuel := by
  cases fuel with
  | zero => omega
  | succ fuel =>
    simp only [execCount]
    split <;> omega

theorem execCount_no_stop {A N R : Type} (roles : List ChatRole)
    (proxies : Nat → List Record → TurnResult A N R) (fuel : Nat) :
    ∀ turn, (∀ t, turn ≤ t → t < turn + fuel → stopsAt roles proxies t = false) →
      execCount roles proxies turn fuel = fuel := by
  induction fuel with
  | zero => intro turn _; rfl
  | succ fuel ih =>
    intro turn h
    have h0 : stopsAt roles proxies turn = false := h turn (Nat.le_refl _) (by omega)
    simp only [execCount, h0, Bool.false_eq_true, if_false]
    rw [ih (turn + 1) (fun t ht1 ht2 => h t (by omega) (by omega))]
    omega

theorem execCount_first_stop {A N R : Type} (roles : List ChatRole)
    (proxies : Nat → List Record → TurnResult A N R) (t : Nat)
    (hstop : stopsAt roles proxies t = true) (fuel : Nat) :
    ∀ turn, turn ≤ t → t < turn + fuel →
      (∀ s, turn ≤ s → s < t → stopsAt roles proxies s = false) →
      execCount roles proxies turn fuel = t - turn + 1 := by
  induction fuel with
  | zero => intro turn h1 h2 _; omega
  | succ fuel ih =>
    intro turn h1 h2 hbefore
    by_cases he : turn = t
    · subst he
      simp [execCount, hstop]
    · have h0 : stopsAt roles proxies turn = false := hbefore turn (Nat.le_refl _) (by omega)
      simp only [execCount, h0, Bool.false_eq_true, if_false]
      rw [ih (turn + 1) (by omega) (by omega) (fun s hs1 hs2 => hbefore s (by omega) hs2)]
      omega

theorem execCount_prefix {A N R : Type} (roles : List ChatRole)
    (proxies : Nat → List Record → TurnResult A N R) (k : Nat) :
    ∀ turn fuel, k ≤ execCount roles proxies turn fuel →
      execCount roles proxies turn k = k := by
  induction k with
  | zero => intro turn fuel _; rfl
  | succ k ih =>
    intro turn fuel h
    cases fuel with
    | zero =>
      simp only [execCount] at h
      omega
    | succ fuel =>
      by_cases hs : stopsAt roles proxies turn
      · have h1 : execCount roles proxies turn (fuel + 1) = 1 := by
          simp [execCount, hs]
        rw [h1] at h
        have hk : k = 0 := by omega
        subst hk
        simp [execCount, hs]
      · have hs' : stopsAt roles proxies turn = false := by simpa using hs
        have h1 : execCount roles proxies turn (fuel + 1) =
            1 + execCount roles proxies (turn + 1) fuel := by
          simp [execCount, hs']
        rw [h1] at h
        have h2 := ih (turn + 1) fuel (by omega)
        simp only [execCount, hs', Bool.false_eq_true, if_false, h2]
        omega

/-- Events of a full line scheduling under valid configuration: one executor
invocation per executed turn, at role index `t % totalRoles`, in turn order. -/
theorem scheduleLineRuns_events {A N R : Type} (roles : List ChatRole)
    (proxies : Nat → List Record → TurnResult A N R) (M : Nat)
    (hvalid : validRoles roles) (hlen : 0 < roles.length) :
    (scheduleLineRuns roles proxies M).1 =
      (List.range (execCount roles proxies 0 M)).map
        (fun t => Event.execLine t (t % roles.length)) := by
  unfold scheduleLineRuns
  rw [processBatchInputs_ok roles hvalid]
  have h0 : (initLoopState : LoopState A N R) = stateAt roles proxies 0 := rfl
  rw [h0, runTurns_stateAt roles proxies hvalid hlen M 0 []]
  simp only [Nat.zero_add, List.nil_append]
  cases hn : execCount roles proxies 0 M with
  | zero => simp [stateAt, initLoopState, List.range_eq_range']
  | succ m => simp [stateAt_last, List.range_eq_range']

/-- Full characterization of a valid line scheduling run with a positive turn
budget: the executor events, per-turn outputs, reserved history key,
aggregation inputs and last-turn metadata, with `n` the number of executed
turns. -/
theorem scheduleLineRuns_run {A N R : Type} (roles : List ChatRole)
    (proxies : Nat → List Record → TurnResult A N R) (M n : Nat)
    (hvalid : validRoles roles) (hlen : 0 < roles.length) (hM : 0 < M)
    (hn : n = execCount roles proxies 0 M) :
    scheduleLineRuns roles proxies M =
      ((List.range n).map (fun t => Event.execLine t (t % roles.length)),
       Except.ok
        { output := (List.range n).map
              (fun t => (OutKey.turn t, OutVal.record (recordAt roles proxies t))) ++
            [(OutKey.historyKey, OutVal.history ((List.range n).map (recordAt roles proxies)))],
          aggregation_inputs := (List.range n).map
            (fun t => (t, (resultAt roles proxies t).aggregation_inputs)),
          node_run_infos := (resultAt roles proxies (n - 1)).node_run_infos,
          run_info := (resultAt roles proxies (n - 1)).run_info }) := by
  obtain ⟨m, hm⟩ : ∃ m, n = m + 1 := by
    have := execCount_pos roles proxies 0 M hM
    exact ⟨n - 1, by omega⟩
  unfold scheduleLineRuns
  rw [processBatchInputs_ok roles hvalid]
  have h0 : (initLoopState : LoopState A N R) = stateAt roles proxies 0 := rfl
  rw [h0, runTurns_stateAt roles proxies hvalid hlen M 0 [], ← hn, hm]
  simp only [Nat.zero_add, List.nil_append]
  rw [stateAt_last roles proxies m]
  have hupd : ∀ (d : List (OutKey × OutVal)) k v, dictUpdate d [(k, v)] = dictInsert d k v :=
    fun d k v => rfl
  rw [stateAt_outputs, stateAt_history, runHistory_eq_map, hupd]
  rw [dictInsert_of_not_mem _ _ _ (by
    intro q hq
    rw [List.map_map] at hq
    obtain ⟨s, hs, rfl⟩ := List.mem_map.mp hq
    simp)]
  rw [List.map_map, stateAt_aggregation]
  rw [← List.range_eq_range', show m + 1 - 1 = m from rfl]
  rfl

/- Claim theorems. -/

/-- C1: For a valid configuration with at least 2 roles and turn budget `M`,
scheduling a line in which no turn's output ever matches the active role's
stop signal executes exactly `M` turns, and the executor invoked at turn `t`
is the one of the role at index `t mod totalRoles` of the registry's
construction order: strict round robin, never reordered. -/
theorem round_robin_turns {A N R : Type} (roles : List ChatRole)
    (proxies : Nat → List Record → TurnResult A N R) (M : Nat)
    (hvalid : validRoles roles) (hlen : 2 ≤ roles.length)
    (hnostop : ∀ t, t < M → stopsAt roles proxies t = false) :
    (scheduleLineRuns roles proxies M).1 =
      (List.range M).map (fun t => Event.execLine t (t % roles.length)) := by
  rw [scheduleLineRuns_events roles proxies M hvalid (by omega)]
  rw [execCount_no_stop roles proxies M 0 (fun t h1 h2 => hnostop t (by omega))]

theorem round_robin_turns_witness :
    (scheduleLineRuns cRoles cProxies 4).1 =
      (List.range 4).map (fun t => Event.execLine t (t % cRoles.length)) :=
  round_robin_turns cRoles cProxies 4 (by decide) (by decide) (by decide)

/-- C2: If at turn `t` some value of the executor result's output equals the
active role's stop signal (and no earlier turn matched), the loop terminates
after turn `t`: exactly `t + 1` executor invocations occur for the line and no
further executor call follows. -/
theorem stop_signal_terminates {A N R : Type} (roles : List ChatRole)
    (proxies : Nat → List Record → TurnResult A N R) (M t : Nat)
    (hvalid : validRoles roles) (hlen : 2 ≤ roles.length) (ht : t < M)
    (hbefore : ∀ s, s < t → stopsAt roles proxies s = false)
    (hstop : stopsAt roles proxies t = true) :
    (scheduleLineRuns roles proxies M).1 =
      (List.range (t + 1)).map (fun s => Event.execLine s (s % roles.length)) := by
  rw [scheduleLineRuns_events roles proxies M hvalid (by omega)]
  rw [execCount_first_stop roles proxies t hstop M 0 (by omega) (by omega)
    (fun s h1 h2 => hbefore s h2)]
  rw [Nat.sub_zero]

theorem stop_signal_terminates_witness :
    (scheduleLineRuns cRoles sProxies 4).1 =
      (List.range (1 + 1)).map (fun s => Event.execLine s (s % cRoles.length)) :=
  stop_signal_terminates cRoles sProxies 4 1 (by decide) (by decide) (by decide)
    (by decide) (by decide)

/-- C3: After `k` completed turns the conversation history is a sequence of
exactly `k` records in turn order; the record of turn `t` is the dict seeded
with the acting role's kind tag under the key "role" and merged with every
field of that turn's executor output; and the history is append-only: a
completed turn only appends one record at the end, never modifying or
removing earlier records. -/
theorem conversation_history_records {A N R : Type} (roles : List ChatRole)
    (proxies : Nat → List Record → TurnResult A N R)
    (hvalid : validRoles roles) (hlen : 2 ≤ roles.length) (k : Nat) :
    (runTurns roles proxies 0 k initLoopState []).2 =
        Except.ok (stateAt roles proxies (execCount roles proxies 0 k)) ∧
    (∀ j, (stateAt roles proxies j).conversation_history =
        (List.range j).map (recordAt roles proxies)) ∧
    (∀ j, ((stateAt roles proxies j).conversation_history).length = j) ∧
    (∀ t, recordAt roles proxies t =
        dictUpdate [("role", (roleAt roles t).role)] (resultAt roles proxies t).output) ∧
    (∀ j, (stateAt roles proxies (j + 1)).conversation_history =
        (stateAt roles proxies j).conversation_history ++ [recordAt roles proxies j]) := by
  refine ⟨?_, ?_, ?_, fun t => rfl, fun j => rfl⟩
  · have h0 : (initLoopState : LoopState A N R) = stateAt roles proxies 0 := rfl
    rw [h0, runTurns_stateAt roles proxies hvalid (by omega) k 0 []]
    simp
  · intro j
    rw [stateAt_history, runHistory_eq_map]
  · intro j
    rw [stateAt_history, runHistory_eq_map]
    simp

theorem conversation_history_records_witness :
    ((stateAt cRoles sProxies 2).conversation_history).length = 2 :=
  (conversation_history_records cRoles sProxies (by decide) (by decide) 2).2.2.1 2

/-- C4: Constructing the orchestrator with fewer than 2 roles (0 or 1) fails
with the `InvalidChatRoleCount` configuration error, and the failure occurs
before any executor proxy is created (no creation event is emitted). -/
theorem invalid_role_count_fails_before_proxies (roles : List ChatRole) (max_turn : Nat)
    (h : roles.length < 2) :
    ChatGroupOrchestrator.init roles max_turn =
      ([], Except.error OrchestratorError.invalidChatRoleCount) := by
  unfold ChatGroupOrchestrator.init
  rw [if_pos h]

theorem invalid_role_count_fails_before_proxies_witness :
    ChatGroupOrchestrator.init [cRoleA] 5 =
      ([], Except.error OrchestratorError.invalidChatRoleCount) :=
  invalid_role_count_fails_before_proxies [cRoleA] 5 (by decide)

/-- C5: If any role's inputs mapping binds the conversation-history sentinel
zero times or more than once, scheduling the line fails with the
`MissingConversationHistoryExpression` or
`MultipleConversationHistoryInputsMapping` configuration error respectively,
before any turn executes for any role: no executor invocation event occurs. -/
theorem mapping_validation_fails_before_execution {A N R : Type} (roles : List ChatRole)
    (proxies : Nat → List Record → TurnResult A N R) (M : Nat)
    (hbad : ∃ r ∈ roles,
      (r.inputs_mapping.map Prod.snd).count CONVERSATION_HISTORY_EXPRESSION ≠ 1) :
    ∃ e, scheduleLineRuns roles proxies M = ([], Except.error e) ∧
      (e = OrchestratorError.missingConversationHistoryExpression ∨
       e = OrchestratorError.multipleConversationHistoryInputsMapping) := by
  have hnv : ¬ validRoles roles := by
    obtain ⟨r, hr, hne⟩ := hbad
    exact fun hv => hne (hv r hr)
  obtain ⟨e, he, hkind⟩ := processBatchInputs_error roles hnv
  refine ⟨e, ?_, hkind⟩
  unfold scheduleLineRuns
  rw [he]

theorem mapping_validation_fails_before_execution_witness :
    ∃ e, scheduleLineRuns [cRoleA, badRole] cProxies 4 = ([], Except.error e) ∧
      (e = OrchestratorError.missingConversationHistoryExpression ∨
       e = OrchestratorError.multipleConversationHistoryInputsMapping) :=
  mapping_validation_fails_before_execution [cRoleA, badRole] cProxies 4
    ⟨badRole, by decide, by decide⟩

theorem turnRecords_map_record (l : List Nat) (f : Nat → Record) :
    turnRecords (l.map (fun t => (OutKey.turn t, OutVal.record (f t)))) = l.map f := by
  induction l with
  | nil => rfl
  | cons a rest ih =>
    simp only [List.map_cons, turnRecords, List.filterMap_cons]
    rw [← turnRecords, ih]

/-- C6: Round trip: in the line result of a completed line, the sequence
stored under the reserved conversation-history output key equals the
concatenation, in execution order, of the per-turn records stored under the
integer turn keys 0, 1, ..., with no reordering or omission. -/
theorem history_output_round_trip {A N R : Type} (roles : List ChatRole)
    (proxies : Nat → List Record → TurnResult A N R) (M : Nat) (lr : LineResult A N R)
    (hvalid : validRoles roles) (hlen : 2 ≤ roles.length) (hM : 0 < M)
    (hok : (scheduleLineRuns roles proxies M).2 = Except.ok lr) :
    alistLookup lr.output OutKey.historyKey =
      some (OutVal.history (turnRecords lr.output)) := by
  rw [scheduleLineRuns_run roles proxies M _ hvalid (by omega) hM rfl] at hok
  simp only [] at hok
  injection hok with hok
  subst hok
  have hkeys : ∀ p ∈ (List.range (execCount roles proxies 0 M)).map
      (fun t => (OutKey.turn t, OutVal.record (recordAt roles proxies t))),
      p.1 ≠ OutKey.historyKey := by
    intro p hp
    obtain ⟨s, hs, rfl⟩ := List.mem_map.mp hp
    simp
  simp only [turnRecords, List.filterMap_append]
  rw [← turnRecords, ← turnRecords, turnRecords_map_record]
  rw [alistLookup_append_right _ _ _ hkeys]
  simp [alistLookup, turnRecords, List.filterMap_cons]

theorem history_output_round_trip_witness :
    alistLookup wLineResult.output OutKey.historyKey =
      some (OutVal.history (turnRecords wLineResult.output)) :=
  history_output_round_trip cRoles cProxies 1 wLineResult (by decide) (by decide)
    (by decide) rfl

/-- C7: The assembled line result of a completed line has: output equal to the
per-turn records keyed by turn index plus the reserved key holding the final
conversation history; aggregation inputs equal to the per-turn aggregation
payloads keyed by turn index, unchanged; and node run infos and run info
copied verbatim from the result of the last executed turn only. -/
theorem line_result_assembly {A N R : Type} (roles : List ChatRole)
    (proxies : Nat → List Record → TurnResult A N R) (M n : Nat)
    (hvalid : validRoles roles) (hlen : 2 ≤ roles.length) (hM : 0 < M)
    (hn : n = execCount roles proxies 0 M) :
    (scheduleLineRuns roles proxies M).2 = Except.ok
      { output := (List.range n).map
            (fun t => (OutKey.turn t, OutVal.record (recordAt roles proxies t))) ++
          [(OutKey.historyKey, OutVal.history ((List.range n).map (recordAt roles proxies)))],
        aggregation_inputs := (List.range n).map
          (fun t => (t, (resultAt roles proxies t).aggregation_inputs)),
        node_run_infos := (resultAt roles proxies (n - 1)).node_run_infos,
        run_info := (resultAt roles proxies (n - 1)).run_info } := by
  rw [scheduleLineRuns_run roles proxies M n hvalid (by omega) hM hn]

theorem line_result_assembly_witness :
    (scheduleLineRuns cRoles cProxies 1).2 = Except.ok
      { output := (List.range 1).map
            (fun t => (OutKey.turn t, OutVal.record (recordAt cRoles cProxies t))) ++
          [(OutKey.historyKey, OutVal.history ((List.range 1).map (recordAt cRoles cProxies)))],
        aggregation_inputs := (List.range 1).map
          (fun t => (t, (resultAt cRoles cProxies t).aggregation_inputs)),
        node_run_infos := (resultAt cRoles cProxies 0).node_run_infos,
        run_info := (resultAt cRoles cProxies 0).run_info } :=
  line_result_assembly cRoles cProxies 1 1 (by decide) (by decide) (by decide) (by decide)

/-- C8 counterexample: with a valid two-role registry, construction with
`maxTurn = 0` succeeds (the constructor performs no check on the turn budget),
and scheduling a line does reach the result-assembly step with no executed
turn, failing there with the attribute error on the undefined last result,
which is none of the three configuration errors. -/
theorem max_turn_zero_not_rejected_cex :
    (ChatGroupOrchestrator.init cRoles 0).2 = Except.ok
        { chat_group_roles := cRoles, max_turn := 0, executor_proxies := [0, 1] } ∧
    scheduleLineRuns cRoles cProxies 0 =
        ([], Except.error OrchestratorError.attributeErrorNone) ∧
    OrchestratorError.attributeErrorNone ≠ OrchestratorError.invalidChatRoleCount ∧
    OrchestratorError.attributeErrorNone ≠
      OrchestratorError.missingConversationHistoryExpression ∧
    OrchestratorError.attributeErrorNone ≠
      OrchestratorError.multipleConversationHistoryInputsMapping :=
  ⟨rfl, rfl, by decide, by decide, by decide⟩

/-- C8 (amended): scheduling with `maxTurn = 0` under a valid configuration is
not rejected as a configuration error: the turn loop never runs, the scheduler
reaches the result-assembly step with no executed turn, and reading the node
and run metadata off the still-undefined last result raises the attribute
error on none. -/
theorem max_turn_zero_attribute_error {A N R : Type} (roles : List ChatRole)
    (proxies : Nat → List Record → TurnResult A N R)
    (hvalid : validRoles roles) (hlen : 2 ≤ roles.length) :
    scheduleLineRuns roles proxies 0 =
      ([], Except.error OrchestratorError.attributeErrorNone) := by
  unfold scheduleLineRuns
  rw [processBatchInputs_ok roles hvalid]
  rfl

theorem max_turn_zero_attribute_error_witness :
    scheduleLineRuns cRoles sProxies 0 =
      ([], Except.error OrchestratorError.attributeErrorNone) :=
  max_turn_zero_attribute_error cRoles sProxies (by decide) (by decide)

theorem destroyLoop_all_ok {E : Type} (l : List (Except E Unit)) :
    ∀ idx, (∀ o ∈ l, o = Except.ok ()) →
      destroyLoop idx l = ((List.range' idx l.length).map Event.destroyProxy, Except.ok ()) := by
  induction l with
  | nil => intro idx _; rfl
  | cons o rest ih =>
    intro idx h
    have ho : o = Except.ok () := h o (List.mem_cons_self o rest)
    subst ho
    simp only [destroyLoop]
    rw [ih (idx + 1) (fun q hq => h q (List.mem_cons_of_mem _ hq))]
    simp [List.range'_succ]

theorem destroyLoop_first_error {E : Type} (l : List (Except E Unit)) :
    ∀ idx i e, i < l.length →
      (∀ j, j < i → l.getD j (Except.ok ()) = Except.ok ()) →
      l.getD i (Except.ok ()) = Except.error e →
      destroyLoop idx l =
        ((List.range' idx (i + 1)).map Event.destroyProxy, Except.error e) := by
  induction l with
  | nil => intro idx i e h; simp at h
  | cons o rest ih =>
    intro idx i e hi hj hie
    cases i with
    | zero =>
      have ho : o = Except.error e := by simpa using hie
      subst ho
      simp [destroyLoop, List.range'_succ]
    | succ i =>
      have ho : o = Except.ok () := by simpa using hj 0 (by omega)
      subst ho
      simp only [destroyLoop]
      rw [ih (idx + 1) i e (by simpa using hi)
        (fun j hjlt => by simpa using hj (j + 1) (by omega)) (by simpa using hie)]
      simp [List.range'_succ]

/-- C9 counterexample: with three executor handles whose middle destroy call
raises, the loop awaits the first two handles and then lets the exception
propagate: the third handle's destroy is never called, so one handle's
destruction failure does prevent destruction of the remaining handles (no
collection of errors, no best-effort cleanup). -/
theorem destroy_failure_aborts_cex :
    ChatGroupOrchestrator.destroy [Except.ok (), Except.error "boom", Except.ok ()] =
      ([Event.destroyProxy 0, Event.destroyProxy 1], Except.error "boom") ∧
    Event.destroyProxy 2 ∉
      (ChatGroupOrchestrator.destroy
        [Except.ok (), Except.error "boom", Except.ok ()]).1 :=
  ⟨rfl, by decide⟩

/-- C9 (amended): destroy tears down the executor handles sequentially in
registry order; when every destroy call succeeds, each handle is destroyed
exactly once in that order; but the first failing handle's exception
propagates immediately, so the handles after it are not destroyed. -/
theorem destroy_sequential_propagates {E : Type} (outcomes : List (Except E Unit)) :
    ((∀ o ∈ outcomes, o = Except.ok ()) →
      ChatGroupOrchestrator.destroy outcomes =
        ((List.range outcomes.length).map Event.destroyProxy, Except.ok ())) ∧
    (∀ i e, i < outcomes.length →
      (∀ j, j < i → outcomes.getD j (Except.ok ()) = Except.ok ()) →
      outcomes.getD i (Except.ok ()) = Except.error e →
      ChatGroupOrchestrator.destroy outcomes =
        ((List.range (i + 1)).map Event.destroyProxy, Except.error e)) := by
  constructor
  · intro h
    unfold ChatGroupOrchestrator.destroy
    rw [destroyLoop_all_ok outcomes 0 h, List.range_eq_range']
  · intro i e hi hj hie
    unfold ChatGroupOrchestrator.destroy
    rw [destroyLoop_first_error outcomes 0 i e hi hj hie, List.range_eq_range']

theorem destroy_sequential_propagates_witness :
    ChatGroupOrchestrator.destroy [Except.ok (), Except.error "late", Except.ok ()] =
      ((List.range (1 + 1)).map Event.destroyProxy, Except.error "late") :=
  (destroy_sequential_propagates [Except.ok (), Except.error "late", Except.ok ()]).2 1 "late"
    (by decide)
    (fun j hj => by
      have hj0 : j = 0 := by omega
      subst hj0
      rfl)
    rfl

/-- C10: If an executed turn's executor output itself contains a key named
"role", the merge in `_process_flow_outputs` overwrites the seeded acting
role's kind tag with the executor's value (the output fields are merged into
the record after the role seed), so the turn's history record carries the
executor's value under "role" and, when that value differs from the kind tag,
no longer carries the acting role's kind tag. -/
theorem role_key_overwritten_by_output {A N R : Type} (roles : List ChatRole)
    (proxies : Nat → List Record → TurnResult A N R) (M t : Nat) (v : String)
    (hvalid : validRoles roles) (hlen : 2 ≤ roles.length)
    (ht : t < execCount roles proxies 0 M)
    (hnodup : ((resultAt roles proxies t).output.map Prod.fst).Nodup)
    (hv : alistLookup (resultAt roles proxies t).output "role" = some v) :
    alistLookup (recordAt roles proxies t) "role" = some v ∧
    (v ≠ (roleAt roles t).role →
      alistLookup (recordAt roles proxies t) "role" ≠ some ((roleAt roles t).role)) := by
  have hmain : alistLookup (recordAt roles proxies t) "role" = some v := by
    unfold recordAt
    exact alistLookup_dictUpdate _ _ _ hnodup hv _
  refine ⟨hmain, fun hne hcontra => ?_⟩
  rw [hmain] at hcontra
  exact hne (Option.some.injEq _ _ ▸ hcontra)

theorem role_key_overwritten_by_output_witness :
    alistLookup (recordAt cRoles wProxies 0) "role" = some "impostor" :=
  (role_key_overwritten_by_output cRoles wProxies 1 0 "impostor" (by decide) (by decide)
    (by decide) (by decide) (by decide)).1

end ChatGroup
